import Mathlib

/-!
Shallow embedding of the 2D sprite-transformation demo (`src/main.py`).

The core of the program is pure real arithmetic: a transform state made of
five scalars, per-frame Euler integration of held keys, three elementary
2x2 matrices built from the state, their composition, and pointwise
application to a fixed 4-point square sprite.  Python floats are modelled
as real numbers; pygame rendering and event plumbing are outside the core
and are not modelled.
-/

noncomputable section

namespace SpriteDemo

/-- A 2D point, mirroring the `[x, y]` lists of the source. -/
abbrev Point : Type := ℝ × ℝ

/-- A 2x2 matrix stored row-major as `((a, b), (c, d))`, mirroring the
nested lists `[[a, b], [c, d]]` of the source. -/
abbrev Matrix2 : Type := (ℝ × ℝ) × (ℝ × ℝ)

/-- `apply_matrix(point, matrix)` from `src/main.py`:
`x' = a*x + b*y`, `y' = c*x + d*y`. -/
def apply_matrix (point : Point) (matrix : Matrix2) : Point :=
  (matrix.1.1 * point.1 + matrix.1.2 * point.2,
   matrix.2.1 * point.1 + matrix.2.2 * point.2)

/-- The rotation matrix `[[cos θ, -sin θ], [sin θ, cos θ]]` built inside
`rotate` in the source. -/
def rotationMatrix (theta : ℝ) : Matrix2 :=
  ((Real.cos theta, -Real.sin theta),
   (Real.sin theta, Real.cos theta))

/-- `rotate(points, theta)` from the source: applies the rotation matrix to
every point and also returns the matrix. -/
def rotate (points : List Point) (theta : ℝ) : List Point × Matrix2 :=
  (points.map (fun p => apply_matrix p (rotationMatrix theta)), rotationMatrix theta)

/-- The scale matrix `[[factor, 0], [0, factor]]` built inside `scale`. -/
def scaleMatrix (factor : ℝ) : Matrix2 :=
  ((factor, 0), (0, factor))

/-- `scale(points, factor)` from the source. -/
def scale (points : List Point) (factor : ℝ) : List Point × Matrix2 :=
  (points.map (fun p => apply_matrix p (scaleMatrix factor)), scaleMatrix factor)

/-- The shear matrix `[[1, k], [0, 1]]` built inside `shear`. -/
def shearMatrix (k : ℝ) : Matrix2 :=
  ((1, k), (0, 1))

/-- `shear(points, k)` from the source. -/
def shear (points : List Point) (k : ℝ) : List Point × Matrix2 :=
  (points.map (fun p => apply_matrix p (shearMatrix k)), shearMatrix k)

/-- Translation of one point by `(tx, ty)`; `translate` in the source maps
this over the list. -/
def translatePoint (p : Point) (tx ty : ℝ) : Point :=
  (p.1 + tx, p.2 + ty)

/-- `translate(points, tx, ty)` from the source. -/
def translate (points : List Point) (tx ty : ℝ) : List Point :=
  points.map (fun p => translatePoint p tx ty)

/-- `multiply_matrices(A, B)` from the source: the standard 2x2 product. -/
def multiply_matrices (A B : Matrix2) : Matrix2 :=
  ((A.1.1 * B.1.1 + A.1.2 * B.2.1,
    A.1.1 * B.1.2 + A.1.2 * B.2.2),
   (A.2.1 * B.1.1 + A.2.2 * B.2.1,
    A.2.1 * B.1.2 + A.2.2 * B.2.2))

/-- The fixed sprite square of the source:
`[[-50,-50],[50,-50],[50,50],[-50,50]]`. -/
def sprite : List Point :=
  [(-50, -50), (50, -50), (50, 50), (-50, 50)]

/-- The five mutable transform globals of the source, gathered into a
record: `scale_factor`, `angle`, `shear_k`, `tx`, `ty`. -/
@[ext]
structure TransformState where
  scale_factor : ℝ
  angle : ℝ
  shear_k : ℝ
  tx : ℝ
  ty : ℝ

/-- `reset()` from the source: sets `scale_factor = 1.0`, `angle = 0`,
`shear_k = 0`, `tx = 0`, `ty = 0`, regardless of the previous state. -/
def reset (_st : TransformState) : TransformState :=
  { scale_factor := 1.0, angle := 0, shear_k := 0, tx := 0, ty := 0 }

/-- The startup values of the transform globals (lines 32-35 of the source). -/
def initialState : TransformState :=
  { scale_factor := 1.0, angle := 0, shear_k := 0.0, tx := 0, ty := 0 }

/-- The set of held keys sampled once per frame
(`pygame.key.get_pressed()` restricted to the keys the loop reads). -/
structure Keys where
  left : Bool
  right : Bool
  up : Bool
  down : Bool
  q : Bool
  e : Bool
  w : Bool
  s : Bool
  a : Bool
  d : Bool
  r : Bool

/-- One frame of the control section of the main loop (lines 218-230 of
`src/main.py`), in source order: rotation keys, scale keys (with the
`max(0.2, ...)` clamp on scale-down), shear keys, movement keys with
`speed = 200`, and finally the reset key. -/
def integrate (keys : Keys) (dt : ℝ) (st : TransformState) : TransformState :=
  let angle := if keys.left then st.angle - 2 * dt else st.angle
  let angle := if keys.right then angle + 2 * dt else angle
  let scale_factor := if keys.up then st.scale_factor + 0.5 * dt else st.scale_factor
  let scale_factor := if keys.down then max 0.2 (scale_factor - 0.5 * dt) else scale_factor
  let shear_k := if keys.q then st.shear_k - dt else st.shear_k
  let shear_k := if keys.e then shear_k + dt else shear_k
  let ty := if keys.w then st.ty - 200 * dt else st.ty
  let ty := if keys.s then ty + 200 * dt else ty
  let tx := if keys.a then st.tx - 200 * dt else st.tx
  let tx := if keys.d then tx + 200 * dt else tx
  let st' : TransformState :=
    { scale_factor := scale_factor, angle := angle, shear_k := shear_k, tx := tx, ty := ty }
  if keys.r then reset st' else st'

/-- A whole run: folding `integrate` over a list of `(keys, dt)` frames. -/
def runFrames (frames : List (Keys × ℝ)) (st : TransformState) : TransformState :=
  frames.foldl (fun acc f => integrate f.1 f.2 acc) st

/-- What the transformation pipeline of one frame produces: the
transformed polygon and the four displayed matrices. -/
structure FrameOutput where
  transformed : List Point
  S : Matrix2
  Sh : Matrix2
  R : Matrix2
  M : Matrix2

/-- The transformation pipeline of the main loop (lines 232-241 of
`src/main.py`): scale, then shear, then rotate, then translate, and the
combined matrix `M = multiply_matrices(multiply_matrices(R, Sh), S)`. -/
def pipeline (st : TransformState) : FrameOutput :=
  let scaledS := scale sprite st.scale_factor
  let shearedSh := shear scaledS.1 st.shear_k
  let rotatedR := rotate shearedSh.1 st.angle
  let transformed := translate rotatedR.1 st.tx st.ty
  let RS := multiply_matrices rotatedR.2 shearedSh.2
  let M := multiply_matrices RS scaledS.2
  { transformed := transformed, S := scaledS.2, Sh := shearedSh.2, R := rotatedR.2, M := M }

/-- The 2x2 identity matrix, for the reset claims. -/
def idMatrix : Matrix2 := ((1, 0), (0, 1))

/-- Determinant of a 2x2 matrix. -/
def det2 (m : Matrix2) : ℝ :=
  m.1.1 * m.2.2 - m.1.2 * m.2.1

/-- Euclidean distance of a point from the origin. -/
def distOrigin (p : Point) : ℝ :=
  Real.sqrt (p.1 ^ 2 + p.2 ^ 2)

/-- Keys with only the scale-down arrow held. -/
def keysDownOnly : Keys :=
  { left := false, right := false, up := false, down := true, q := false, e := false,
    w := false, s := false, a := false, d := false, r := false }

/-- Keys with every handled key held at once. -/
def allKeysHeld : Keys :=
  { left := true, right := true, up := true, down := true, q := true, e := true,
    w := true, s := true, a := true, d := true, r := true }

end SpriteDemo

namespace SpriteDemo

/-- C1: for every transform state and every point, applying the combined
matrix `M = (R * Sh) * S` directly and then translating by `(tx, ty)`
gives exactly the step-by-step result `translate(R * (Sh * (S * p)))` of
the pipeline; in particular the pipeline's output polygon equals the
sprite mapped through `M` and the translation. -/
theorem combined_matrix_equiv (st : TransformState) (p : Point) :
    translatePoint (apply_matrix p (pipeline st).M) st.tx st.ty =
      translatePoint
        (apply_matrix
          (apply_matrix (apply_matrix p (scaleMatrix st.scale_factor)) (shearMatrix st.shear_k))
          (rotationMatrix st.angle)) st.tx st.ty ∧
    (pipeline st).transformed =
      sprite.map (fun q => translatePoint (apply_matrix q (pipeline st).M) st.tx st.ty) := by
  constructor
  · simp only [pipeline, scale, shear, rotate, translate, multiply_matrices, apply_matrix,
      translatePoint, scaleMatrix, shearMatrix, rotationMatrix]
    exact Prod.ext (by ring) (by ring)
  · simp only [pipeline, scale, shear, rotate, translate, multiply_matrices, apply_matrix,
      translatePoint, scaleMatrix, shearMatrix, rotationMatrix, List.map_map]
    refine List.map_congr_left fun q _ => ?_
    exact Prod.ext (by simp; ring) (by simp; ring)

end SpriteDemo

namespace SpriteDemo

/-- One frame of integration keeps the scale at or above the 0.2 floor,
for any held keys and any non-negative delta time. -/
theorem integrate_scale_floor (keys : Keys) (dt : ℝ) (st : TransformState)
    (hdt : 0 ≤ dt) (hst : 0.2 ≤ st.scale_factor) :
    0.2 ≤ (integrate keys dt st).scale_factor := by
  by_cases hr : keys.r
  · simp [integrate, hr, reset]
    norm_num
  · by_cases hd : keys.down
    · simp [integrate, hr, hd]
    · by_cases hu : keys.up
      · simp [integrate, hr, hd, hu]
        linarith
      · simp [integrate, hr, hd, hu]
        exact hst

/-- C2: starting from any scale at or above 0.2 (the initial scale is 1.0),
any sequence of frames with arbitrary held keys and non-negative delta
times keeps the scale factor at or above 0.2. -/
theorem scale_floor (frames : List (Keys × ℝ)) (st : TransformState)
    (hst : 0.2 ≤ st.scale_factor) (hdt : ∀ f ∈ frames, 0 ≤ f.2) :
    0.2 ≤ (runFrames frames st).scale_factor := by
  induction frames generalizing st with
  | nil => simpa [runFrames] using hst
  | cons f fs ih =>
      simp only [runFrames, List.foldl_cons] at ih ⊢
      exact ih (integrate f.1 f.2 st)
        (integrate_scale_floor f.1 f.2 st (hdt f (List.mem_cons_self f fs)) hst)
        (fun g hg => hdt g (List.mem_cons_of_mem f hg))

/-- Witness for C2 at a concrete run: one 10-second scale-down frame from
the initial state. -/
theorem scale_floor_witness :
    0.2 ≤ initialState.scale_factor ∧
    (∀ f ∈ [(keysDownOnly, (10 : ℝ))], (0 : ℝ) ≤ f.2) ∧
    0.2 ≤ (runFrames [(keysDownOnly, 10)] initialState).scale_factor := by
  have h1 : (0.2 : ℝ) ≤ initialState.scale_factor := by norm_num [initialState]
  have h2 : ∀ f ∈ [(keysDownOnly, (10 : ℝ))], (0 : ℝ) ≤ f.2 := by
    intro f hf
    simp only [List.mem_singleton] at hf
    subst hf
    norm_num
  exact ⟨h1, h2, scale_floor _ _ h1 h2⟩

/-- C3: reset sets the identity values; resetting twice equals resetting
once; and on the reset state the pipeline produces identity matrices S,
Sh, R, M and a transformed polygon equal to the sprite. -/
theorem reset_identity (st : TransformState) :
    reset st = { scale_factor := 1.0, angle := 0, shear_k := 0, tx := 0, ty := 0 } ∧
    reset (reset st) = reset st ∧
    (pipeline (reset st)).S = idMatrix ∧
    (pipeline (reset st)).Sh = idMatrix ∧
    (pipeline (reset st)).R = idMatrix ∧
    (pipeline (reset st)).M = idMatrix ∧
    (pipeline (reset st)).transformed = sprite := by
  refine ⟨rfl, rfl, ?_, ?_, ?_, ?_, ?_⟩ <;>
    simp [pipeline, scale, shear, rotate, translate, multiply_matrices, apply_matrix,
      translatePoint, scaleMatrix, shearMatrix, rotationMatrix, idMatrix, reset, sprite] <;>
    norm_num

/-- C4: whenever the reset key is held in a frame, the state after that
frame's integration is exactly the identity values, regardless of the
delta time and of every other held key. -/
theorem reset_overrides (keys : Keys) (dt : ℝ) (st : TransformState) (hr : keys.r = true) :
    integrate keys dt st =
      { scale_factor := 1.0, angle := 0, shear_k := 0, tx := 0, ty := 0 } := by
  simp [integrate, hr, reset]

/-- Witness for C4: every key held at once, a concrete delta time, and the
initial state still integrate to the identity values. -/
theorem reset_overrides_witness :
    allKeysHeld.r = true ∧
    integrate allKeysHeld 0.7 initialState =
      { scale_factor := 1.0, angle := 0, shear_k := 0, tx := 0, ty := 0 } :=
  ⟨rfl, reset_overrides allKeysHeld 0.7 initialState rfl⟩

end SpriteDemo

namespace SpriteDemo

/-- Field view of one frame when reset is not held: the angle update. -/
lemma integrate_angle (keys : Keys) (dt : ℝ) (st : TransformState) (hr : keys.r = false) :
    (integrate keys dt st).angle =
      if keys.right then (if keys.left then st.angle - 2 * dt else st.angle) + 2 * dt
      else if keys.left then st.angle - 2 * dt else st.angle := by
  simp [integrate, hr]

/-- Field view of one frame when reset is not held: the scale update. -/
lemma integrate_scale (keys : Keys) (dt : ℝ) (st : TransformState) (hr : keys.r = false) :
    (integrate keys dt st).scale_factor =
      if keys.down then
        max 0.2 ((if keys.up then st.scale_factor + 0.5 * dt else st.scale_factor) - 0.5 * dt)
      else if keys.up then st.scale_factor + 0.5 * dt else st.scale_factor := by
  simp [integrate, hr]

/-- Field view of one frame when reset is not held: the shear update. -/
lemma integrate_shear (keys : Keys) (dt : ℝ) (st : TransformState) (hr : keys.r = false) :
    (integrate keys dt st).shear_k =
      if keys.e then (if keys.q then st.shear_k - dt else st.shear_k) + dt
      else if keys.q then st.shear_k - dt else st.shear_k := by
  simp [integrate, hr]

/-- Field view of one frame when reset is not held: the horizontal move. -/
lemma integrate_tx (keys : Keys) (dt : ℝ) (st : TransformState) (hr : keys.r = false) :
    (integrate keys dt st).tx =
      if keys.d then (if keys.a then st.tx - 200 * dt else st.tx) + 200 * dt
      else if keys.a then st.tx - 200 * dt else st.tx := by
  simp [integrate, hr]

/-- Field view of one frame when reset is not held: the vertical move. -/
lemma integrate_ty (keys : Keys) (dt : ℝ) (st : TransformState) (hr : keys.r = false) :
    (integrate keys dt st).ty =
      if keys.s then (if keys.w then st.ty - 200 * dt else st.ty) + 200 * dt
      else if keys.w then st.ty - 200 * dt else st.ty := by
  simp [integrate, hr]

/-- C5: with reset not held and the scale at or above its floor, each
opposing key pair held together leaves its parameter unchanged for any
delta time. -/
theorem opposing_keys_cancel (keys : Keys) (dt : ℝ) (st : TransformState)
    (hr : keys.r = false) (hs : 0.2 ≤ st.scale_factor) :
    (keys.left = true → keys.right = true → (integrate keys dt st).angle = st.angle) ∧
    (keys.up = true → keys.down = true →
      (integrate keys dt st).scale_factor = st.scale_factor) ∧
    (keys.q = true → keys.e = true → (integrate keys dt st).shear_k = st.shear_k) ∧
    (keys.a = true → keys.d = true → (integrate keys dt st).tx = st.tx) ∧
    (keys.w = true → keys.s = true → (integrate keys dt st).ty = st.ty) := by
  refine ⟨fun hl hri => ?_, fun hu hd => ?_, fun hq he => ?_, fun ha hd2 => ?_,
    fun hw hs2 => ?_⟩
  · rw [integrate_angle keys dt st hr]
    simp only [if_pos hl, if_pos hri]
    ring
  · rw [integrate_scale keys dt st hr]
    simp only [if_pos hu, if_pos hd]
    rw [show st.scale_factor + 0.5 * dt - 0.5 * dt = st.scale_factor from by ring]
    exact max_eq_right hs
  · rw [integrate_shear keys dt st hr]
    simp only [if_pos hq, if_pos he]
    ring
  · rw [integrate_tx keys dt st hr]
    simp only [if_pos ha, if_pos hd2]
    ring
  · rw [integrate_ty keys dt st hr]
    simp only [if_pos hw, if_pos hs2]
    ring

/-- Keys with every opposing pair held and reset not held. -/
def oppKeys : Keys :=
  { left := true, right := true, up := true, down := true, q := true, e := true,
    w := true, s := true, a := true, d := true, r := false }

/-- Witness for C5: all opposing pairs held for a quarter second from the
initial state leave angle and scale unchanged. -/
theorem opposing_keys_cancel_witness :
    oppKeys.r = false ∧ 0.2 ≤ initialState.scale_factor ∧
    (integrate oppKeys 0.25 initialState).angle = initialState.angle ∧
    (integrate oppKeys 0.25 initialState).scale_factor = initialState.scale_factor := by
  have h1 : oppKeys.r = false := rfl
  have h2 : (0.2 : ℝ) ≤ initialState.scale_factor := by norm_num [initialState]
  have h := opposing_keys_cancel oppKeys 0.25 initialState h1 h2
  exact ⟨h1, h2, h.1 rfl rfl, h.2.1 rfl rfl⟩

end SpriteDemo

namespace SpriteDemo

/-- Clamping down twice by half-steps equals clamping once by the full
step, for non-negative step time. -/
lemma clamp_twice (s T : ℝ) (hT : 0 ≤ T) :
    max 0.2 (max 0.2 (s - 0.5 * T) - 0.5 * T) = max 0.2 (s - 0.5 * (2 * T)) := by
  rcases le_total (s - 0.5 * T) 0.2 with h | h
  · rw [max_eq_left h, max_eq_left (by linarith), max_eq_left (by linarith)]
  · rw [max_eq_right h]
    congr 1
    ring

/-- C6: integrating any fixed set of held keys for time T twice in a row
gives the same state as integrating it once for 2T, for every starting
state and every T ≥ 0; in particular this holds for each single held key,
including the clamped scale-down key. -/
theorem integrate_linear (keys : Keys) (T : ℝ) (st : TransformState) (hT : 0 ≤ T) :
    integrate keys T (integrate keys T st) = integrate keys (2 * T) st := by
  by_cases hr : keys.r
  · simp [integrate, hr, reset]
  · have hr' : keys.r = false := by simpa using hr
    ext
    · rw [integrate_scale keys T (integrate keys T st) hr', integrate_scale keys T st hr',
        integrate_scale keys (2 * T) st hr']
      by_cases hu : keys.up <;> by_cases hd : keys.down
      · simp only [if_pos hu, if_pos hd]
        rw [show st.scale_factor + 0.5 * T - 0.5 * T = st.scale_factor from by ring,
          show max 0.2 st.scale_factor + 0.5 * T - 0.5 * T = max 0.2 st.scale_factor from by ring,
          show st.scale_factor + 0.5 * (2 * T) - 0.5 * (2 * T) = st.scale_factor from by ring,
          ← max_assoc, max_self]
      · simp only [if_pos hu, if_neg hd]
        ring
      · simp only [if_neg hu, if_pos hd]
        exact clamp_twice st.scale_factor T hT
      · simp only [if_neg hu, if_neg hd]
    · rw [integrate_angle keys T (integrate keys T st) hr', integrate_angle keys T st hr',
        integrate_angle keys (2 * T) st hr']
      by_cases hl : keys.left <;> by_cases hri : keys.right <;>
        simp [hl, hri] <;> ring
    · rw [integrate_shear keys T (integrate keys T st) hr', integrate_shear keys T st hr',
        integrate_shear keys (2 * T) st hr']
      by_cases hq : keys.q <;> by_cases he : keys.e <;>
        simp [hq, he] <;> ring
    · rw [integrate_tx keys T (integrate keys T st) hr', integrate_tx keys T st hr',
        integrate_tx keys (2 * T) st hr']
      by_cases ha : keys.a <;> by_cases hd : keys.d <;>
        simp [ha, hd] <;> ring
    · rw [integrate_ty keys T (integrate keys T st) hr', integrate_ty keys T st hr',
        integrate_ty keys (2 * T) st hr']
      by_cases hw : keys.w <;> by_cases hs : keys.s <;>
        simp [hw, hs] <;> ring

/-- Witness for C6: one second of scale-down twice equals two seconds of
scale-down once, from the initial state. -/
theorem integrate_linear_witness :
    (0 : ℝ) ≤ 1 ∧
    integrate keysDownOnly 1 (integrate keysDownOnly 1 initialState) =
      integrate keysDownOnly (2 * 1) initialState :=
  ⟨zero_le_one, integrate_linear keysDownOnly 1 initialState zero_le_one⟩

/-- C7: the rotation matrix preserves the distance of every point from
the origin, for every angle, exactly over the reals. -/
theorem rotation_norm_preserving (theta : ℝ) (p : Point) :
    distOrigin (apply_matrix p (rotationMatrix theta)) = distOrigin p := by
  unfold distOrigin apply_matrix rotationMatrix
  congr 1
  have h := Real.sin_sq_add_cos_sq theta
  linear_combination (p.1 ^ 2 + p.2 ^ 2) * h

/-- C8: the sprite is the fixed 4-point square, every transform step is a
pure map producing a fresh list, and the pipeline output has exactly one
point per sprite point, in the same order, each derived from the sprite
point at the same position. -/
theorem sprite_pointwise (st : TransformState) :
    sprite = [((-50 : ℝ), (-50 : ℝ)), (50, -50), (50, 50), (-50, 50)] ∧
    (pipeline st).transformed =
      sprite.map (fun p =>
        translatePoint
          (apply_matrix
            (apply_matrix (apply_matrix p (scaleMatrix st.scale_factor))
              (shearMatrix st.shear_k)) (rotationMatrix st.angle)) st.tx st.ty) ∧
    (pipeline st).transformed.length = sprite.length := by
  refine ⟨rfl, ?_, ?_⟩
  · simp [pipeline, scale, shear, rotate, translate, List.map_map, Function.comp]
  · simp [pipeline, scale, shear, rotate, translate, sprite]

end SpriteDemo

namespace SpriteDemo

/-- C9: in every frame, det R = 1, det Sh = 1, det S = scale², and the
combined matrix has det M = scale²; with the scale floor 0.2 this gives
det M ≥ 0.04, so M is never singular. -/
theorem det_combined (st : TransformState) (hs : 0.2 ≤ st.scale_factor) :
    det2 (pipeline st).R = 1 ∧
    det2 (pipeline st).Sh = 1 ∧
    det2 (pipeline st).S = st.scale_factor ^ 2 ∧
    det2 (pipeline st).M = st.scale_factor ^ 2 ∧
    0.04 ≤ det2 (pipeline st).M ∧
    det2 (pipeline st).M ≠ 0 := by
  have hsin := Real.sin_sq_add_cos_sq st.angle
  have hR : det2 (pipeline st).R = 1 := by
    simp only [pipeline, rotate, shear, scale, det2, rotationMatrix]
    linear_combination hsin
  have hSh : det2 (pipeline st).Sh = 1 := by
    simp only [pipeline, rotate, shear, scale, det2, shearMatrix]
    ring
  have hS : det2 (pipeline st).S = st.scale_factor ^ 2 := by
    simp only [pipeline, rotate, shear, scale, det2, scaleMatrix]
    ring
  have hM : det2 (pipeline st).M = st.scale_factor ^ 2 := by
    simp only [pipeline, rotate, shear, scale, det2, multiply_matrices, rotationMatrix,
      shearMatrix, scaleMatrix]
    linear_combination st.scale_factor ^ 2 * hsin
  have hbound : 0.04 ≤ det2 (pipeline st).M := by
    rw [hM]
    nlinarith
  have hne : det2 (pipeline st).M ≠ 0 := by
    have hpos : (0 : ℝ) < det2 (pipeline st).M := by linarith
    exact hpos.ne'
  exact ⟨hR, hSh, hS, hM, hbound, hne⟩

/-- Witness for C9 at the initial state. -/
theorem det_combined_witness :
    0.2 ≤ initialState.scale_factor ∧
    det2 (pipeline initialState).M = initialState.scale_factor ^ 2 := by
  have h1 : (0.2 : ℝ) ≤ initialState.scale_factor := by norm_num [initialState]
  exact ⟨h1, (det_combined initialState h1).2.2.2.1⟩

/-- C10: the uniform scale matrix commutes with every 2x2 matrix under
`multiply_matrices`, so the combined matrix and the transformed points are
unchanged when the scale factor is moved to any position in the
composition. -/
theorem scale_matrix_commutes (X : Matrix2) (f theta k : ℝ) (p : Point) :
    multiply_matrices X (scaleMatrix f) = multiply_matrices (scaleMatrix f) X ∧
    multiply_matrices (multiply_matrices (rotationMatrix theta) (shearMatrix k))
        (scaleMatrix f) =
      multiply_matrices (scaleMatrix f)
        (multiply_matrices (rotationMatrix theta) (shearMatrix k)) ∧
    multiply_matrices (multiply_matrices (rotationMatrix theta) (shearMatrix k))
        (scaleMatrix f) =
      multiply_matrices (rotationMatrix theta)
        (multiply_matrices (scaleMatrix f) (shearMatrix k)) ∧
    apply_matrix p
        (multiply_matrices (multiply_matrices (rotationMatrix theta) (shearMatrix k))
          (scaleMatrix f)) =
      apply_matrix p
        (multiply_matrices (scaleMatrix f)
          (multiply_matrices (rotationMatrix theta) (shearMatrix k))) := by
  refine ⟨?_, ?_, ?_, ?_⟩ <;>
    simp only [multiply_matrices, scaleMatrix, shearMatrix, rotationMatrix, apply_matrix,
      Prod.mk.injEq] <;>
    and_intros <;> ring

end SpriteDemo
